import Mathlib

/-!
Verification development for the penumbra `pd` core: the stateless
transaction verifier (`pd/src/verify/stateless.rs`), the shared data model
(`pd/src/verify.rs`), and the state writer (`pd/src/state/writer.rs`).

Opaque cryptographic material (keys, signatures, commitments, nullifiers,
hashes, proofs) is modelled by `Nat` identifiers; the cryptographic verify
capabilities from external crates are injected as boolean-valued functions.
`BTreeMap` / `BTreeSet` values are modelled as lists with explicit insert
semantics.  Fallible database operations, plus the two Rust panics in
`commit_block`, are modelled by the three-valued `TxOut` result type.
-/

set_option autoImplicit false

namespace Penumbra

/-! ## Data model (`pd/src/verify.rs`) -/

/-- `NoteData` from `verify.rs`: ciphertext and provenance of one shielded
output. -/
structure NoteData where
  ephemeral_key : Nat
  encrypted_note : Nat
  transaction_id : Nat
  deriving DecidableEq

/-- `PositionedNoteData` from `verify.rs`: a note plus its insertion index. -/
structure PositionedNoteData where
  position : Nat
  data : NoteData
  deriving DecidableEq

/-- Body of an `Output` action (external `penumbra_transaction` crate; the
fields are those read by `verify_stateless`). -/
structure OutputBody where
  value_commitment : Nat
  note_commitment : Nat
  ephemeral_key : Nat
  encrypted_note : Nat
  proof : Nat
  deriving DecidableEq

/-- An `Output` action. -/
structure Output where
  body : OutputBody
  deriving DecidableEq

/-- Body of a `Spend` action (external crate; fields read by
`verify_stateless`). -/
structure SpendBody where
  value_commitment : Nat
  nullifier : Nat
  rk : Nat
  proof : Nat
  deriving DecidableEq

/-- A `Spend` action with its spend-auth signature. -/
structure Spend where
  body : SpendBody
  auth_sig : Nat
  deriving DecidableEq

/-- The `Action` enum as matched by `verify_stateless`: `Output`, `Spend`,
`Delegate`, `Undelegate`, and a wildcard for every other action kind
(the `_` arm).  Delegate/Undelegate payloads are opaque. -/
inductive Action where
  | output (o : Output)
  | spend (s : Spend)
  | delegate (d : Nat)
  | undelegate (u : Nat)
  | other
  deriving DecidableEq

/-- A `Transaction` (external crate), carrying the fields read by
`verify_stateless`: its id, the sighash of its body, the declared merkle
root, the binding verification key and binding signature, and the action
list in declaration order. -/
structure Transaction where
  id : Nat
  sighash : Nat
  merkle_root : Nat
  binding_verification_key : Nat
  binding_sig : Nat
  actions : List Action
  deriving DecidableEq

/-- The injected cryptographic verification capabilities (external crates,
treated as opaque `verify` oracles per the spec):
binding-signature check (key, sighash, sig), spend-auth check
(rk, sighash, sig), spend-proof check (proof, merkle root,
value commitment, nullifier, rk), output-proof check
(proof, value commitment, note commitment, ephemeral key). -/
structure Crypto where
  bindingVerify : Nat → Nat → Nat → Bool
  spendAuthVerify : Nat → Nat → Nat → Bool
  spendProofVerify : Nat → Nat → Nat → Nat → Nat → Bool
  outputProofVerify : Nat → Nat → Nat → Nat → Bool

/-- The stateless verification error taxonomy; one constructor per distinct
error site in `verify_stateless`. -/
inductive VerificationError where
  | BindingSignatureInvalid
  | SpendAuthInvalid
  | ProofInvalid (kind : String)
  | DoubleSpendWithinTransaction
  | UnsupportedAction
  deriving DecidableEq

/-- `BTreeMap.insert` on a key-ordered map, modelled on an association list:
an existing binding for the key is overwritten, otherwise the binding is
appended. -/
def insertNote (m : List (Nat × NoteData)) (k : Nat) (v : NoteData) :
    List (Nat × NoteData) :=
  if m.any (fun p => p.1 == k) then
    m.map (fun p => if p.1 == k then (k, v) else p)
  else m ++ [(k, v)]

/-- `PendingTransaction` from `verify.rs`. -/
structure PendingTransaction where
  id : Nat
  root : Nat
  new_notes : List (Nat × NoteData)
  spent_nullifiers : List Nat
  delegations : List Nat
  undelegations : List Nat
  validators : List Nat
  deriving DecidableEq

/-! ## Stateless verifier (`pd/src/verify/stateless.rs`) -/

/-- The action loop of `verify_stateless`, carrying the running
accumulators (`spent_nullifiers`, `new_notes`, `delegations`,
`undelegations`) exactly as in the source. -/
def verifyActions (c : Crypto) (id sighash merkle_root : Nat) :
    List Action → List Nat → List (Nat × NoteData) → List Nat → List Nat →
    Except VerificationError
      (List (Nat × NoteData) × List Nat × List Nat × List Nat)
  | [], nulls, notes, dels, undels => .ok (notes, nulls, dels, undels)
  | .output o :: rest, nulls, notes, dels, undels =>
    if c.outputProofVerify o.body.proof o.body.value_commitment
        o.body.note_commitment o.body.ephemeral_key then
      verifyActions c id sighash merkle_root rest nulls
        (insertNote notes o.body.note_commitment
          ⟨o.body.ephemeral_key, o.body.encrypted_note, id⟩)
        dels undels
    else
      .error (.ProofInvalid "output")
  | .spend s :: rest, nulls, notes, dels, undels =>
    if c.spendAuthVerify s.body.rk sighash s.auth_sig then
      if c.spendProofVerify s.body.proof merkle_root s.body.value_commitment
          s.body.nullifier s.body.rk then
        if nulls.contains s.body.nullifier then
          .error .DoubleSpendWithinTransaction
        else
          verifyActions c id sighash merkle_root rest
            (nulls ++ [s.body.nullifier]) notes dels undels
      else
        .error (.ProofInvalid "spend")
    else
      .error .SpendAuthInvalid
  | .delegate d :: rest, nulls, notes, dels, undels =>
    verifyActions c id sighash merkle_root rest nulls notes
      (dels ++ [d]) undels
  | .undelegate u :: rest, nulls, notes, dels, undels =>
    verifyActions c id sighash merkle_root rest nulls notes dels
      (undels ++ [u])
  | .other :: _, _, _, _, _ => .error .UnsupportedAction

/-- `verify_stateless` from `stateless.rs`: check the binding signature,
then fold the action checks, and on success assemble the
`PendingTransaction` (with the `validators` list left at its initial empty
value, as in the source). -/
def verify_stateless (c : Crypto) (tx : Transaction) :
    Except VerificationError PendingTransaction :=
  if c.bindingVerify tx.binding_verification_key tx.sighash tx.binding_sig then
    match verifyActions c tx.id tx.sighash tx.merkle_root tx.actions
        [] [] [] [] with
    | .ok (notes, nulls, dels, undels) =>
      .ok ⟨tx.id, tx.merkle_root, notes, nulls, dels, undels, []⟩
    | .error e => .error e
  else
    .error .BindingSignatureInvalid

/-- The note commitments of a transaction's `Output` actions, in
declaration order (spec-side description used to state claims). -/
def outputCommitments : List Action → List Nat
  | [] => []
  | .output o :: rest => o.body.note_commitment :: outputCommitments rest
  | _ :: rest => outputCommitments rest

/-- The nullifiers of a transaction's `Spend` actions, in declaration order
(spec-side description used to state claims). -/
def spendNullifiers : List Action → List Nat
  | [] => []
  | .spend s :: rest => s.body.nullifier :: spendNullifiers rest
  | _ :: rest => spendNullifiers rest

/-- All per-action cryptographic checks pass and no unsupported action kind
occurs: every output proof verifies, every spend-auth signature and spend
proof verifies.  Used to express the "otherwise verifies" hypothesis of the
double-spend claim. -/
def allChecksPass (c : Crypto) (sighash merkle_root : Nat) :
    List Action → Bool
  | [] => true
  | .output o :: rest =>
    c.outputProofVerify o.body.proof o.body.value_commitment
        o.body.note_commitment o.body.ephemeral_key
      && allChecksPass c sighash merkle_root rest
  | .spend s :: rest =>
    c.spendAuthVerify s.body.rk sighash s.auth_sig
      && c.spendProofVerify s.body.proof merkle_root s.body.value_commitment
          s.body.nullifier s.body.rk
      && allChecksPass c sighash merkle_root rest
  | .delegate _ :: rest => allChecksPass c sighash merkle_root rest
  | .undelegate _ :: rest => allChecksPass c sighash merkle_root rest
  | .other :: _ => false

/-! ## Lemmas about the stateless verifier -/

theorem keys_replace (m : List (Nat × NoteData)) (k : Nat) (v : NoteData) :
    (m.map (fun p => if p.1 == k then (k, v) else p)).map Prod.fst
      = m.map Prod.fst := by
  rw [List.map_map]
  apply List.map_congr_left
  intro p hp
  by_cases hpk : p.1 = k
  · simp [hpk]
  · simp [hpk]

theorem mem_keys_insertNote (m : List (Nat × NoteData)) (k : Nat)
    (v : NoteData) (k' : Nat) :
    k' ∈ (insertNote m k v).map Prod.fst ↔ k' = k ∨ k' ∈ m.map Prod.fst := by
  unfold insertNote
  by_cases h : m.any (fun p => p.1 == k) = true
  · obtain ⟨p0, hp0, hk0⟩ := List.any_eq_true.mp h
    simp only [beq_iff_eq] at hk0
    rw [if_pos h, keys_replace]
    constructor
    · exact Or.inr
    · rintro (rfl | hmem)
      · rw [List.mem_map]
        exact ⟨p0, hp0, hk0⟩
      · exact hmem
  · rw [if_neg h]
    simp only [List.map_append, List.mem_append, List.map_cons,
      List.map_nil, List.mem_singleton]
    tauto

theorem keys_insertNote_toFinset (m : List (Nat × NoteData)) (k : Nat)
    (v : NoteData) :
    ((insertNote m k v).map Prod.fst).toFinset
      = insert k (m.map Prod.fst).toFinset := by
  ext a
  rw [List.mem_toFinset, mem_keys_insertNote, Finset.mem_insert,
    List.mem_toFinset]

theorem verifyActions_ok_sets (c : Crypto) (id sighash merkle_root : Nat) :
    ∀ (acts : List Action) (nulls : List Nat)
      (notes : List (Nat × NoteData)) (dels undels : List Nat)
      (res : List (Nat × NoteData) × List Nat × List Nat × List Nat),
      verifyActions c id sighash merkle_root acts nulls notes dels undels
          = .ok res →
      (res.1.map Prod.fst).toFinset
          = (notes.map Prod.fst).toFinset ∪ (outputCommitments acts).toFinset
        ∧ res.2.1.toFinset = nulls.toFinset ∪ (spendNullifiers acts).toFinset := by
  intro acts
  induction acts with
  | nil =>
    intro nulls notes dels undels res h
    simp only [verifyActions, Except.ok.injEq] at h
    subst h
    simp [outputCommitments, spendNullifiers]
  | cons a rest ih =>
    intro nulls notes dels undels res h
    cases a with
    | output o =>
      simp only [verifyActions] at h
      split at h
      · have hr := ih _ _ _ _ _ h
        rw [keys_insertNote_toFinset] at hr
        refine ⟨?_, ?_⟩
        · rw [hr.1]
          ext x
          simp only [outputCommitments, List.toFinset_cons, Finset.mem_union,
            Finset.mem_insert]
          tauto
        · rw [hr.2]
          simp [spendNullifiers]
      · cases h
    | spend s =>
      simp only [verifyActions] at h
      split at h
      · split at h
        · split at h
          · cases h
          · have hr := ih _ _ _ _ _ h
            refine ⟨?_, ?_⟩
            · rw [hr.1]
              simp [outputCommitments]
            · rw [hr.2]
              ext x
              simp only [spendNullifiers, List.toFinset_append,
                List.toFinset_cons, List.toFinset_nil, Finset.mem_union,
                Finset.mem_insert, Finset.not_mem_empty, or_false,
                Finset.mem_singleton]
              tauto
        · cases h
      · cases h
    | delegate d =>
      simp only [verifyActions] at h
      have hr := ih _ _ _ _ _ h
      simpa [outputCommitments, spendNullifiers] using hr
    | undelegate u =>
      simp only [verifyActions] at h
      have hr := ih _ _ _ _ _ h
      simpa [outputCommitments, spendNullifiers] using hr
    | other =>
      simp only [verifyActions] at h
      cases h

theorem verifyActions_allPass (c : Crypto) (id sighash merkle_root : Nat) :
    ∀ (acts : List Action) (nulls : List Nat)
      (notes : List (Nat × NoteData)) (dels undels : List Nat),
      allChecksPass c sighash merkle_root acts = true →
      (∃ res, verifyActions c id sighash merkle_root acts nulls notes dels
          undels = .ok res)
      ∨ verifyActions c id sighash merkle_root acts nulls notes dels undels
          = .error .DoubleSpendWithinTransaction := by
  intro acts
  induction acts with
  | nil =>
    intro nulls notes dels undels _
    exact Or.inl ⟨_, rfl⟩
  | cons a rest ih =>
    intro nulls notes dels undels hall
    cases a with
    | output o =>
      simp only [allChecksPass, Bool.and_eq_true] at hall
      simp only [verifyActions, hall.1, if_true]
      exact ih _ _ _ _ hall.2
    | spend s =>
      simp only [allChecksPass, Bool.and_eq_true] at hall
      obtain ⟨⟨h1, h2⟩, h3⟩ := hall
      simp only [verifyActions, h1, h2, if_true]
      by_cases hc : nulls.contains s.body.nullifier = true
      · rw [if_pos hc]
        exact Or.inr rfl
      · rw [if_neg hc]
        exact ih _ _ _ _ h3
    | delegate d =>
      simp only [allChecksPass] at hall
      simp only [verifyActions]
      exact ih _ _ _ _ hall
    | undelegate u =>
      simp only [allChecksPass] at hall
      simp only [verifyActions]
      exact ih _ _ _ _ hall
    | other =>
      simp only [allChecksPass] at hall
      cases hall

theorem verifyActions_ok_nodup (c : Crypto) (id sighash merkle_root : Nat) :
    ∀ (acts : List Action) (nulls : List Nat)
      (notes : List (Nat × NoteData)) (dels undels : List Nat)
      (res : List (Nat × NoteData) × List Nat × List Nat × List Nat),
      verifyActions c id sighash merkle_root acts nulls notes dels undels
          = .ok res →
      (spendNullifiers acts).Nodup ∧ ∀ n ∈ spendNullifiers acts, n ∉ nulls := by
  intro acts
  induction acts with
  | nil =>
    intro nulls notes dels undels res _
    simp [spendNullifiers]
  | cons a rest ih =>
    intro nulls notes dels undels res h
    cases a with
    | output o =>
      simp only [verifyActions] at h
      split at h
      · simpa [spendNullifiers] using ih _ _ _ _ _ h
      · cases h
    | spend s =>
      simp only [verifyActions] at h
      split at h
      · split at h
        · split at h
          · cases h
          · rename_i hauth hproof hc
            simp only [Bool.not_eq_true] at hc
            replace hc : s.body.nullifier ∉ nulls := by simpa using hc
            have hr := ih _ _ _ _ _ h
            constructor
            · rw [spendNullifiers, List.nodup_cons]
              refine ⟨fun hmem => ?_, hr.1⟩
              have := hr.2 _ hmem
              simp at this
            · intro n hn
              rw [spendNullifiers, List.mem_cons] at hn
              rcases hn with rfl | hn
              · exact hc
              · have := hr.2 _ hn
                simp only [List.mem_append, List.mem_singleton] at this
                exact fun hmem => this (Or.inl hmem)
        · cases h
      · cases h
    | delegate d =>
      simp only [verifyActions] at h
      simpa [spendNullifiers] using ih _ _ _ _ _ h
    | undelegate u =>
      simp only [verifyActions] at h
      simpa [spendNullifiers] using ih _ _ _ _ _ h
    | other =>
      simp only [verifyActions] at h
      cases h

/-! ## Claim theorems for the stateless verifier -/

/-- C2: for every transaction on which `verify_stateless` succeeds, the key
set of `new_notes` in the returned `PendingTransaction` equals exactly the
set of note commitments of the transaction's `Output` actions, and
`spent_nullifiers` equals exactly the set of nullifiers of its `Spend`
actions. -/
theorem verify_stateless_note_nullifier_sets (c : Crypto) (tx : Transaction)
    (pt : PendingTransaction) (h : verify_stateless c tx = .ok pt) :
    (pt.new_notes.map Prod.fst).toFinset
        = (outputCommitments tx.actions).toFinset
    ∧ pt.spent_nullifiers.toFinset = (spendNullifiers tx.actions).toFinset := by
  unfold verify_stateless at h
  split at h
  · cases hm : verifyActions c tx.id tx.sighash tx.merkle_root tx.actions
        [] [] [] [] with
    | error e =>
      rw [hm] at h
      cases h
    | ok res =>
      rw [hm] at h
      obtain ⟨notes, nulls, dels, undels⟩ := res
      simp only [Except.ok.injEq] at h
      subst h
      have hr := verifyActions_ok_sets c tx.id tx.sighash tx.merkle_root
        tx.actions [] [] [] [] _ hm
      simpa using hr
  · cases h

/-- Witness for C2: a transaction with one output (commitment 5) and one
spend (nullifier 9), all-accepting capabilities. -/
def cAll : Crypto :=
  ⟨fun _ _ _ => true, fun _ _ _ => true, fun _ _ _ _ _ => true,
   fun _ _ _ _ => true⟩

def txW : Transaction :=
  ⟨1, 2, 3, 4, 5,
   [.output ⟨⟨10, 5, 11, 12, 13⟩⟩, .spend ⟨⟨20, 9, 21, 22⟩, 23⟩]⟩

def ptW : PendingTransaction :=
  ⟨1, 3, [(5, ⟨11, 12, 1⟩)], [9], [], [], []⟩

theorem verify_stateless_note_nullifier_sets_witness :
    (ptW.new_notes.map Prod.fst).toFinset
        = (outputCommitments txW.actions).toFinset
    ∧ ptW.spent_nullifiers.toFinset = (spendNullifiers txW.actions).toFinset :=
  verify_stateless_note_nullifier_sets cAll txW ptW rfl

/-- C3: a transaction containing two `Spend` actions with the same
nullifier, all of whose signature and proof checks otherwise pass (binding
signature valid, spend-auth signatures and spend proofs valid, output
proofs valid, no unsupported action), is rejected as a whole with the
double-spend-within-transaction error. -/
theorem verify_stateless_double_spend (c : Crypto) (tx : Transaction)
    (hb : c.bindingVerify tx.binding_verification_key tx.sighash
        tx.binding_sig = true)
    (hall : allChecksPass c tx.sighash tx.merkle_root tx.actions = true)
    (hdup : ¬ (spendNullifiers tx.actions).Nodup) :
    verify_stateless c tx = .error .DoubleSpendWithinTransaction := by
  unfold verify_stateless
  simp only [hb, if_true]
  rcases verifyActions_allPass c tx.id tx.sighash tx.merkle_root tx.actions
      [] [] [] [] hall with ⟨res, hok⟩ | herr
  · exact absurd (verifyActions_ok_nodup c tx.id tx.sighash tx.merkle_root
      tx.actions [] [] [] [] _ hok).1 hdup
  · rw [herr]

/-- Witness for C3: two spends of nullifier 9 in one transaction. -/
def txD : Transaction :=
  ⟨1, 2, 3, 4, 5,
   [.spend ⟨⟨20, 9, 21, 22⟩, 23⟩, .spend ⟨⟨30, 9, 31, 32⟩, 33⟩]⟩

theorem verify_stateless_double_spend_witness :
    verify_stateless cAll txD = .error .DoubleSpendWithinTransaction :=
  verify_stateless_double_spend cAll txD rfl rfl (by decide)

/-- C7: a transaction whose binding signature does not verify fails with
the binding-signature error, and it does so before examining any action:
the result is the same for every action list. -/
theorem verify_stateless_binding_sig (c : Crypto) (tx : Transaction)
    (hb : c.bindingVerify tx.binding_verification_key tx.sighash
        tx.binding_sig = false) :
    verify_stateless c tx = .error .BindingSignatureInvalid
    ∧ ∀ acts : List Action,
        verify_stateless c { tx with actions := acts }
          = .error .BindingSignatureInvalid := by
  refine ⟨?_, fun acts => ?_⟩
  · simp [verify_stateless, hb]
  · simp [verify_stateless, hb]

/-- Witness for C7: capabilities that reject every binding signature. -/
def cNoBinding : Crypto :=
  ⟨fun _ _ _ => false, fun _ _ _ => true, fun _ _ _ _ _ => true,
   fun _ _ _ _ => true⟩

theorem verify_stateless_binding_sig_witness :
    verify_stateless cNoBinding txW = .error .BindingSignatureInvalid
    ∧ ∀ acts : List Action,
        verify_stateless cNoBinding { txW with actions := acts }
          = .error .BindingSignatureInvalid :=
  verify_stateless_binding_sig cNoBinding txW rfl

/-- C9: whenever `verify_stateless` succeeds, the `validators` field of the
returned `PendingTransaction` is the empty list: no action arm ever appends
to it. -/
theorem verify_stateless_validators_empty (c : Crypto) (tx : Transaction)
    (pt : PendingTransaction) (h : verify_stateless c tx = .ok pt) :
    pt.validators = [] := by
  unfold verify_stateless at h
  split at h
  · cases hm : verifyActions c tx.id tx.sighash tx.merkle_root tx.actions
        [] [] [] [] with
    | error e =>
      rw [hm] at h
      cases h
    | ok res =>
      rw [hm] at h
      obtain ⟨notes, nulls, dels, undels⟩ := res
      simp only [Except.ok.injEq] at h
      subst h
      rfl
  · cases h

theorem verify_stateless_validators_empty_witness : ptW.validators = [] :=
  verify_stateless_validators_empty cAll txW ptW rfl

/-! ## State writer data model (`pd/src/state/writer.rs`)

The relational schema (migrations are not part of the shown sources) is
modelled from the spec's persisted relational layout, including the
uniqueness constraints it names: `blobs` keyed by id, `blocks` keyed by
height, `notes` keyed by note commitment, a uniqueness constraint on
`nullifiers.nullifier`, `base_rates` keyed by epoch, `validator_rates`
keyed by (identity key, epoch), `validators` keyed by identity key. -/

/-- `RateData` from the external `penumbra_stake` crate (fields used by the
writer). -/
structure RateData where
  identity_key : Nat
  epoch_index : Nat
  validator_reward_rate : Nat
  validator_exchange_rate : Nat
  deriving DecidableEq

/-- `BaseRateData` (external crate; fields used by the writer). -/
structure BaseRateData where
  epoch_index : Nat
  base_reward_rate : Nat
  base_exchange_rate : Nat
  deriving DecidableEq

/-- An `Epoch` (external crate); the writer reads only its index. -/
structure Epoch where
  index : Nat
  deriving DecidableEq

/-- A validator status update (external crate; fields used by the
writer). -/
structure ValidatorStatus where
  identity_key : Nat
  voting_power : Nat
  deriving DecidableEq

/-- `FundingStream` (external `penumbra_stake` crate). -/
structure FundingStream where
  address : Nat
  rate_bps : Nat
  deriving DecidableEq

/-- A validator definition as read by `commit_genesis` (external crate). -/
structure Validator where
  identity_key : Nat
  consensus_key : Nat
  sequence_number : Nat
  name : String
  website : String
  description : String
  funding_streams : List FundingStream
  deriving DecidableEq

/-- `genesis::ValidatorPower`: a validator plus its initial voting power. -/
structure ValidatorPower where
  validator : Validator
  power : Nat
  deriving DecidableEq

/-- Modelled from the spec: `genesis::AppState`, the genesis configuration,
is not among the shown sources; the writer reads its chain parameters
(opaque here) and its validator list. -/
structure AppState where
  chain_params : Nat
  validators : List ValidatorPower
  deriving DecidableEq

/-- Modelled from the spec: `PendingBlock` is built by the external block
assembler; the fields are the ones `commit_block` consumes, per the spec's
data model. `notes` maps note commitments to positioned note data;
`delegation_changes` is a per-identity signed delta; `supply_updates` maps
asset ids to (denom, total supply). -/
structure PendingBlock where
  note_commitment_tree : Nat
  height : Option Nat
  epoch : Option Epoch
  notes : List (Nat × PositionedNoteData)
  spent_nullifiers : List Nat
  delegation_changes : List (Nat × Int)
  supply_updates : List (Nat × String × Nat)
  next_base_rate : Option BaseRateData
  next_rates : Option (List RateData)
  next_validator_statuses : Option (List ValidatorStatus)
  deriving DecidableEq

/-- Modelled from the spec: `NUM_RECENT_ANCHORS` is declared outside the
shown sources; the spec fixes only that it bounds the recent-anchors
window.  The concrete value is immaterial to every claim proved here. -/
def NUM_RECENT_ANCHORS : Nat := 64

/-- `root2` of the note commitment tree (external crate): the tree itself
is opaque here, so its root is the opaque value itself. -/
def root2 (tree : Nat) : Nat := tree

/-- Data stored in the `blobs` table: the genesis config under id "gc",
the serialized note commitment tree under id "nct".  Serialization is
modelled as storing the value itself. -/
inductive BlobData where
  | gc (g : AppState)
  | nct (tree : Nat)
  deriving DecidableEq

/-- A row of the `blocks` table. -/
structure BlockRow where
  height : Nat
  nct_anchor : Nat
  app_hash : Nat
  deriving DecidableEq

/-- A row of the `notes` table. -/
structure NoteRow where
  note_commitment : Nat
  ephemeral_key : Nat
  encrypted_note : Nat
  transaction_id : Nat
  position : Nat
  height : Nat
  deriving DecidableEq

/-- A row of the `validators` table. -/
structure ValidatorRow where
  identity_key : Nat
  consensus_key : Nat
  sequence_number : Nat
  name : String
  website : String
  description : String
  voting_power : Nat
  validator_state : String
  unbonding_epoch : Option Nat
  deriving DecidableEq

/-- A row of the `validator_fundingstreams` table. -/
structure FundingStreamRow where
  identity_key : Nat
  address : Nat
  rate_bps : Nat
  deriving DecidableEq

/-- A row of the `base_rates` table. -/
structure BaseRateRow where
  epoch : Nat
  base_reward_rate : Nat
  base_exchange_rate : Nat
  deriving DecidableEq

/-- A row of the `validator_rates` table. -/
structure ValidatorRateRow where
  identity_key : Nat
  epoch : Nat
  validator_reward_rate : Nat
  validator_exchange_rate : Nat
  deriving DecidableEq

/-- The persisted database: the relational tables plus the node store of
the authenticated (Jellyfish Merkle) tree, modelled as the list of
version-keyed key-value writes applied so far. -/
structure Db where
  blobs : List (String × BlobData)
  blocks : List BlockRow
  notes : List NoteRow
  nullifiers : List (Nat × Nat)
  delegation_changes : List (Nat × Nat × Int)
  assets : List (Nat × String × Nat)
  validators : List ValidatorRow
  validator_fundingstreams : List FundingStreamRow
  base_rates : List BaseRateRow
  validator_rates : List ValidatorRateRow
  jmt : List (Nat × Nat × Nat)
  deriving DecidableEq

/-- The watch channels' current values: chain params, height, next-epoch
rate data by identity key, and the recent-anchors window (front = head). -/
structure Channels where
  chain_params : Nat
  height : Nat
  next_rate_data : List (Nat × RateData)
  valid_anchors : List Nat
  deriving DecidableEq

/-- The writer's full state: the persisted database plus the channel
values. -/
structure WriterState where
  db : Db
  channels : Channels
  deriving DecidableEq

/-- Result of a fallible step inside a database transaction: success, a
database (constraint) error surfaced through the `?` operator, or a Rust
panic from `expect`/`unwrap`. -/
inductive TxOut (α : Type) where
  | ok (a : α)
  | err
  | panic (msg : String)
  deriving DecidableEq

/-- Sequencing of fallible transaction steps (the `?` operator: errors and
panics propagate). -/
def TxOut.bind {α β : Type} : TxOut α → (α → TxOut β) → TxOut β
  | .ok a, f => f a
  | .err, _ => .err
  | .panic m, _ => .panic m

theorem TxOut.bind_eq_ok {α β : Type} {x : TxOut α} {f : α → TxOut β}
    {b : β} : TxOut.bind x f = .ok b ↔ ∃ a, x = .ok a ∧ f a = .ok b := by
  cases x <;> simp [TxOut.bind]

/-! ### Database operations -/

/-- INSERT INTO blobs with no conflict resolution: fails on a duplicate
id. -/
def Db.insertBlob (db : Db) (id : String) (data : BlobData) : TxOut Db :=
  if db.blobs.any (fun p => p.1 == id) then .err
  else .ok { db with blobs := db.blobs ++ [(id, data)] }

/-- INSERT INTO blobs ... ON CONFLICT (id) DO UPDATE SET data: an upsert,
never fails. -/
def Db.upsertBlob (db : Db) (id : String) (data : BlobData) : Db :=
  if db.blobs.any (fun p => p.1 == id) then
    { db with blobs := db.blobs.map (fun p => if p.1 == id then (id, data) else p) }
  else { db with blobs := db.blobs ++ [(id, data)] }

/-- INSERT INTO blocks: fails on a duplicate height. -/
def Db.insertBlock (db : Db) (h anchor app : Nat) : TxOut Db :=
  if db.blocks.any (fun r => r.height == h) then .err
  else .ok { db with blocks := db.blocks ++ [⟨h, anchor, app⟩] }

/-- INSERT INTO notes: fails on a duplicate note commitment. -/
def Db.insertNoteRow (db : Db) (r : NoteRow) : TxOut Db :=
  if db.notes.any (fun q => q.note_commitment == r.note_commitment) then .err
  else .ok { db with notes := db.notes ++ [r] }

/-- INSERT INTO nullifiers: fails on a duplicate nullifier (the durable
cross-block double-spend defense). -/
def Db.insertNullifier (db : Db) (n h : Nat) : TxOut Db :=
  if db.nullifiers.any (fun p => p.1 == n) then .err
  else .ok { db with nullifiers := db.nullifiers ++ [(n, h)] }

/-- INSERT INTO delegation_changes (no constraint named by the spec). -/
def Db.insertDelegationChange (db : Db) (ik epoch : Nat) (delta : Int) : Db :=
  { db with delegation_changes := db.delegation_changes ++ [(ik, epoch, delta)] }

/-- INSERT INTO assets ... ON CONFLICT (asset_id) DO UPDATE: an upsert,
never fails. -/
def Db.upsertAsset (db : Db) (id : Nat) (denom : String) (supply : Nat) : Db :=
  if db.assets.any (fun p => p.1 == id) then
    { db with assets :=
        (db.assets.map (fun p => if p.1 == id then (id, denom, supply) else p)) }
  else { db with assets := db.assets ++ [(id, denom, supply)] }

/-- INSERT INTO base_rates: fails on a duplicate epoch. -/
def Db.insertBaseRate (db : Db) (epoch reward exch : Nat) : TxOut Db :=
  if db.base_rates.any (fun r => r.epoch == epoch) then .err
  else .ok { db with base_rates := db.base_rates ++ [⟨epoch, reward, exch⟩] }

/-- INSERT INTO validator_rates: fails on a duplicate (identity key,
epoch). -/
def Db.insertValidatorRate (db : Db) (ik epoch reward exch : Nat) : TxOut Db :=
  if db.validator_rates.any (fun r => r.identity_key == ik && r.epoch == epoch)
  then .err
  else .ok { db with validator_rates :=
    db.validator_rates ++ [⟨ik, epoch, reward, exch⟩] }

/-- INSERT INTO validators: fails on a duplicate identity key. -/
def Db.insertValidator (db : Db) (r : ValidatorRow) : TxOut Db :=
  if db.validators.any (fun q => q.identity_key == r.identity_key) then .err
  else .ok { db with validators := db.validators ++ [r] }

/-- INSERT INTO validator_fundingstreams (no constraint named by the
spec). -/
def Db.insertFundingStream (db : Db) (r : FundingStreamRow) : Db :=
  { db with validator_fundingstreams := db.validator_fundingstreams ++ [r] }

/-- UPDATE validators SET voting_power WHERE identity_key matches. -/
def Db.updateValidatorPower (db : Db) (ik power : Nat) : Db :=
  { db with validators :=
      (db.validators.map (fun r =>
        if r.identity_key == ik then { r with voting_power := power } else r)) }

/-! ### Jellyfish Merkle tree (external `jmt` crate)

The tree is opaque; its node store is modelled as the list of
version-keyed writes, and its root as a deterministic digest of that
list.  `put_value_set` reads through the writer's private reader (the
committed store) and produces the new root plus the node batch to write. -/

def mix (a b : Nat) : Nat := (a + b) * (a + b) + a + 1

def jmtRootOf : List (Nat × Nat × Nat) → Nat
  | [] => 0
  | (v, k, x) :: rest => mix (mix v (mix k x)) (jmtRootOf rest)

def jmtPut (store : List (Nat × Nat × Nat)) (key val version : Nat) :
    Nat × (Nat × Nat × Nat) :=
  (jmtRootOf ((version, key, val) :: store), (version, key, val))

/-- The domain-separated hash of `jellyfish::Key::NoteCommitmentAnchor`. -/
def noteCommitmentAnchorKeyHash : Nat := 0

/-! ### Channel events

Each send on a watch channel, and the commit of the database transaction,
is recorded as an event so that ordering claims can be stated. -/

inductive Event where
  | dbCommit
  | publishParams (p : Nat)
  | publishHeight (h : Nat)
  | publishAnchors (a : List Nat)
  | publishRates (m : List (Nat × RateData))
  deriving DecidableEq

def Event.isPublish : Event → Bool
  | .dbCommit => false
  | _ => true

/-- Outcome of `commit_block`: the returned app hash, a surfaced database
error, or a panic. -/
inductive Outcome where
  | ok (app_hash : Nat)
  | err
  | panic (msg : String)
  deriving DecidableEq

/-- Outcome of `commit_genesis`. -/
inductive GenesisOutcome where
  | ok
  | err
  | panic (msg : String)
  deriving DecidableEq

/-! ### commit_genesis (`writer.rs`) -/

/-- `RateDataById` (a `BTreeMap` keyed by identity key) insert, modelled on
an association list: overwrite an existing binding, else append. -/
def rdInsert (m : List (Nat × RateData)) (k : Nat) (v : RateData) :
    List (Nat × RateData) :=
  if m.any (fun p => p.1 == k) then
    m.map (fun p => if p.1 == k then (k, v) else p)
  else m ++ [(k, v)]

/-- `RateDataById` lookup. -/
def rdLookup (m : List (Nat × RateData)) (k : Nat) : Option RateData :=
  (m.find? (fun p => p.1 == k)).map Prod.snd

/-- The per-validator loop of `commit_genesis`: insert the validator row
(state forced to Active, no unbonding epoch), its funding streams, its
epoch-0 and epoch-1 rates (reward 0, exchange rate 1.0 at scale 1e8), and
accumulate the next-rate-data map entry at epoch index 1. -/
def genesisValidatorLoop :
    Db → List (Nat × RateData) → List ValidatorPower →
    TxOut (Db × List (Nat × RateData))
  | dbtx, nrd, [] => .ok (dbtx, nrd)
  | dbtx, nrd, vp :: rest =>
    TxOut.bind (dbtx.insertValidator
      ⟨vp.validator.identity_key, vp.validator.consensus_key,
       vp.validator.sequence_number, vp.validator.name, vp.validator.website,
       vp.validator.description, vp.power, "ACTIVE", none⟩) (fun dbtx =>
    let dbtx := vp.validator.funding_streams.foldl (fun db fs =>
      db.insertFundingStream ⟨vp.validator.identity_key, fs.address, fs.rate_bps⟩)
      dbtx
    TxOut.bind (dbtx.insertValidatorRate vp.validator.identity_key 0 0
        100000000) (fun dbtx =>
    TxOut.bind (dbtx.insertValidatorRate vp.validator.identity_key 1 0
        100000000) (fun dbtx =>
    genesisValidatorLoop dbtx
      (rdInsert nrd vp.validator.identity_key
        ⟨vp.validator.identity_key, 1, 0, 100000000⟩)
      rest)))

/-- The transactional body of `commit_genesis`: insert the genesis config
blob keyed "gc" with no conflict resolution, pre-populate base rates for
epochs 0 and 1 (reward 0, exchange rate 1e8), then run the validator
loop. -/
def commitGenesisTx (st : WriterState) (g : AppState) :
    TxOut (Db × List (Nat × RateData)) :=
  TxOut.bind (st.db.insertBlob "gc" (.gc g)) (fun dbtx =>
  TxOut.bind (dbtx.insertBaseRate 0 0 100000000) (fun dbtx =>
  TxOut.bind (dbtx.insertBaseRate 1 0 100000000) (fun dbtx =>
  genesisValidatorLoop dbtx [] g.validators)))

/-- `commit_genesis`: run the transactional body; on failure the
transaction is rolled back (the writer state is unchanged and nothing is
published); on success commit, then publish chain params and next rate
data (height and anchors are not yet meaningful and are not published). -/
def commit_genesis (st : WriterState) (g : AppState) :
    GenesisOutcome × WriterState × List Event :=
  match commitGenesisTx st g with
  | .err => (.err, st, [])
  | .panic m => (.panic m, st, [])
  | .ok (dbtx, nrd) =>
    let ch := { st.channels with chain_params := g.chain_params, next_rate_data := nrd }
    (.ok, ⟨dbtx, ch⟩,
     [Event.dbCommit, Event.publishParams g.chain_params,
      Event.publishRates nrd])

/-! ### commit_block (`writer.rs`) -/

/-- The new-notes loop of `commit_block`: insert each note with its
position and the block height. -/
def insertNotes (height : Nat) :
    Db → List (Nat × PositionedNoteData) → TxOut Db
  | dbtx, [] => .ok dbtx
  | dbtx, (c, pn) :: rest =>
    TxOut.bind (dbtx.insertNoteRow
      ⟨c, pn.data.ephemeral_key, pn.data.encrypted_note,
       pn.data.transaction_id, pn.position, height⟩) (fun dbtx =>
    insertNotes height dbtx rest)

/-- The spent-nullifiers loop of `commit_block`. -/
def insertNullifiers (height : Nat) : Db → List Nat → TxOut Db
  | dbtx, [] => .ok dbtx
  | dbtx, n :: rest =>
    TxOut.bind (dbtx.insertNullifier n height) (fun dbtx =>
    insertNullifiers height dbtx rest)

/-- The delegation-changes loop of `commit_block`. -/
def insertDelegationChanges (epoch_index : Nat) (dbtx : Db)
    (changes : List (Nat × Int)) : Db :=
  changes.foldl (fun db p => db.insertDelegationChange p.1 epoch_index p.2) dbtx

/-- The supply-updates loop of `commit_block`. -/
def upsertAssets (dbtx : Db) (updates : List (Nat × String × Nat)) : Db :=
  updates.foldl (fun db p => db.upsertAsset p.1 p.2.1 p.2.2) dbtx

/-- The per-validator rate inserts of `commit_block`. -/
def insertValidatorRates : Db → List RateData → TxOut Db
  | dbtx, [] => .ok dbtx
  | dbtx, rd :: rest =>
    TxOut.bind (dbtx.insertValidatorRate rd.identity_key rd.epoch_index
      rd.validator_reward_rate rd.validator_exchange_rate) (fun dbtx =>
    insertValidatorRates dbtx rest)

/-- The rate-insert step of `commit_block`: only when the block carries
both a next base rate and next validator rates (the
`if let (Some(..), Some(..))` in the source). -/
def insertRates (dbtx : Db) (nbr : Option BaseRateData)
    (nrs : Option (List RateData)) : TxOut Db :=
  match nbr, nrs with
  | some br, some rates =>
    TxOut.bind (dbtx.insertBaseRate br.epoch_index br.base_reward_rate
      br.base_exchange_rate) (fun db => insertValidatorRates db rates)
  | _, _ => .ok dbtx

/-- The voting-power update step of `commit_block`. -/
def updateValidatorPowers (dbtx : Db) :
    Option (List ValidatorStatus) → Db
  | none => dbtx
  | some statuses =>
    statuses.foldl (fun db s => db.updateValidatorPower s.identity_key
      s.voting_power) dbtx

/-- The state of the transaction after the first two writes of
`commit_block`: the "nct" blob upsert and the Jellyfish node-batch write
for the (anchor key, nct root) put at the block height.  The Jellyfish put
reads the committed store through the writer's private reader
(`st.db.jmt`). -/
def preBlockDb (st : WriterState) (b : PendingBlock) (height : Nat) : Db :=
  let dbtx := st.db.upsertBlob "nct" (.nct b.note_commitment_tree)
  { dbtx with jmt := dbtx.jmt ++
      [(jmtPut st.db.jmt noteCommitmentAnchorKeyHash
        (root2 b.note_commitment_tree) height).2] }

/-- The app hash: the root of the Jellyfish Merkle tree after the block's
put at the block height. -/
def blockAppHash (st : WriterState) (b : PendingBlock) (height : Nat) : Nat :=
  (jmtPut st.db.jmt noteCommitmentAnchorKeyHash
    (root2 b.note_commitment_tree) height).1

/-- The updated anchors window: clone the channel value, pop the back when
the window is at (or beyond) `NUM_RECENT_ANCHORS`, then push the new nct
root at the front. -/
def newAnchors (st : WriterState) (b : PendingBlock) : List Nat :=
  root2 b.note_commitment_tree ::
    (if NUM_RECENT_ANCHORS ≤ st.channels.valid_anchors.length
     then st.channels.valid_anchors.dropLast
     else st.channels.valid_anchors)

/-- The next-rate-data map collected from the block's next validator
rates, keyed by identity key, when present. -/
def nextRateDataOf (b : PendingBlock) : Option (List (Nat × RateData)) :=
  b.next_rates.map (fun rates =>
    rates.foldl (fun m rd => rdInsert m rd.identity_key rd) [])

/-- The transactional body of `commit_block`, in source order: upsert the
serialized note commitment tree as blob "nct"; read the height
(`expect`, panics when unset); put the (anchor-key, nct-root) pair into
the Jellyfish tree at the height and write the node batch; the resulting
root is the app hash; insert the blocks row; insert notes; insert spent
nullifiers; read the epoch (`unwrap`, panics when unset); insert
delegation changes; upsert assets; insert next-epoch rates when both
present; update voting powers; compute the updated anchors window and the
next-rate-data map.  Returns everything the post-commit phase needs. -/
def commitBlockTx (st : WriterState) (b : PendingBlock) :
    TxOut (Db × Nat × Nat × List Nat × Option (List (Nat × RateData))) :=
  match b.height with
  | none => .panic "height must be set"
  | some height =>
    TxOut.bind ((preBlockDb st b height).insertBlock height
      (root2 b.note_commitment_tree) (blockAppHash st b height)) (fun dbtx =>
    TxOut.bind (insertNotes height dbtx b.notes) (fun dbtx =>
    TxOut.bind (insertNullifiers height dbtx b.spent_nullifiers) (fun dbtx =>
    match b.epoch with
    | none => .panic "called Option::unwrap() on a None value"
    | some epoch =>
      TxOut.bind (insertRates
        (upsertAssets (insertDelegationChanges epoch.index dbtx
          b.delegation_changes) b.supply_updates)
        b.next_base_rate b.next_rates) (fun dbtx =>
      .ok (updateValidatorPowers dbtx b.next_validator_statuses, height,
        blockAppHash st b height, newAnchors st b, nextRateDataOf b)))))

/-- `commit_block`: run the transactional body; on failure roll back (the
writer state is unchanged and nothing is published); on success commit,
then publish the new height and anchors window, and the next-rate-data map
when present (chain params are not republished), and return the app
hash. -/
def commit_block (st : WriterState) (b : PendingBlock) :
    Outcome × WriterState × List Event :=
  match commitBlockTx st b with
  | .err => (.err, st, [])
  | .panic m => (.panic m, st, [])
  | .ok (dbtx, height, app_hash, valid_anchors, next_rate_data) =>
    let ch := { st.channels with height := height, valid_anchors := valid_anchors, next_rate_data := next_rate_data.getD st.channels.next_rate_data }
    (.ok app_hash, ⟨dbtx, ch⟩,
     [Event.dbCommit, Event.publishHeight height,
      Event.publishAnchors valid_anchors]
       ++ (match next_rate_data with
           | some m => [Event.publishRates m]
           | none => []))

/-- A sequence of block commits; `none` as soon as one fails. -/
def commitBlocks : WriterState → List PendingBlock → Option WriterState
  | st, [] => some st
  | st, b :: rest =>
    match commit_block st b with
    | (.ok _, st', _) => commitBlocks st' rest
    | _ => none

/-! ## Lemmas about the writer's database operations -/

theorem insertBlock_ok {db db' : Db} {h a p : Nat}
    (hok : Db.insertBlock db h a p = .ok db') :
    db' = { db with blocks := db.blocks ++ [⟨h, a, p⟩] } := by
  unfold Db.insertBlock at hok
  split at hok
  · cases hok
  · cases hok
    rfl

theorem insertNoteRow_ok {db db' : Db} {r : NoteRow}
    (hok : Db.insertNoteRow db r = .ok db') :
    db' = { db with notes := db.notes ++ [r] } := by
  unfold Db.insertNoteRow at hok
  split at hok
  · cases hok
  · cases hok
    rfl

theorem insertNullifier_ok {db db' : Db} {n h : Nat}
    (hok : Db.insertNullifier db n h = .ok db') :
    db' = { db with nullifiers := db.nullifiers ++ [(n, h)] } := by
  unfold Db.insertNullifier at hok
  split at hok
  · cases hok
  · cases hok
    rfl

theorem insertBaseRate_ok {db db' : Db} {e w x : Nat}
    (hok : Db.insertBaseRate db e w x = .ok db') :
    db' = { db with base_rates := db.base_rates ++ [⟨e, w, x⟩] } := by
  unfold Db.insertBaseRate at hok
  split at hok
  · cases hok
  · cases hok
    rfl

theorem insertValidatorRate_ok {db db' : Db} {ik e w x : Nat}
    (hok : Db.insertValidatorRate db ik e w x = .ok db') :
    db' = { db with validator_rates := db.validator_rates ++ [⟨ik, e, w, x⟩] } := by
  unfold Db.insertValidatorRate at hok
  split at hok
  · cases hok
  · cases hok
    rfl

theorem insertValidator_ok {db db' : Db} {r : ValidatorRow}
    (hok : Db.insertValidator db r = .ok db') :
    db' = { db with validators := db.validators ++ [r] } := by
  unfold Db.insertValidator at hok
  split at hok
  · cases hok
  · cases hok
    rfl

theorem preBlockDb_fields (st : WriterState) (b : PendingBlock)
    (height : Nat) :
    (preBlockDb st b height).base_rates = st.db.base_rates
    ∧ (preBlockDb st b height).validator_rates = st.db.validator_rates := by
  unfold preBlockDb Db.upsertBlob
  split <;> exact ⟨rfl, rfl⟩

theorem insertNotes_ok_fields (height : Nat) :
    ∀ (l : List (Nat × PositionedNoteData)) (db db' : Db),
      insertNotes height db l = .ok db' →
      db'.base_rates = db.base_rates
      ∧ db'.validator_rates = db.validator_rates
      ∧ db'.blobs = db.blobs := by
  intro l
  induction l with
  | nil =>
    intro db db' h
    cases h
    exact ⟨rfl, rfl, rfl⟩
  | cons p rest ih =>
    intro db db' h
    obtain ⟨c, pn⟩ := p
    simp only [insertNotes, TxOut.bind_eq_ok] at h
    obtain ⟨db1, h1, h2⟩ := h
    have e1 := insertNoteRow_ok h1
    subst e1
    have hr := ih _ _ h2
    exact hr

theorem insertNullifiers_ok_fields (height : Nat) :
    ∀ (l : List Nat) (db db' : Db),
      insertNullifiers height db l = .ok db' →
      db'.base_rates = db.base_rates
      ∧ db'.validator_rates = db.validator_rates
      ∧ db'.blobs = db.blobs := by
  intro l
  induction l with
  | nil =>
    intro db db' h
    cases h
    exact ⟨rfl, rfl, rfl⟩
  | cons n rest ih =>
    intro db db' h
    simp only [insertNullifiers, TxOut.bind_eq_ok] at h
    obtain ⟨db1, h1, h2⟩ := h
    have e1 := insertNullifier_ok h1
    subst e1
    have hr := ih _ _ h2
    exact hr

theorem insertDelegationChanges_fields (e : Nat) :
    ∀ (l : List (Nat × Int)) (db : Db),
      (insertDelegationChanges e db l).base_rates = db.base_rates
      ∧ (insertDelegationChanges e db l).validator_rates
          = db.validator_rates := by
  intro l
  induction l with
  | nil =>
    intro db
    exact ⟨rfl, rfl⟩
  | cons p rest ih =>
    intro db
    simp only [insertDelegationChanges, List.foldl_cons]
    exact ih _

theorem upsertAsset_fields (db : Db) (i : Nat) (d : String) (s : Nat) :
    (Db.upsertAsset db i d s).base_rates = db.base_rates
    ∧ (Db.upsertAsset db i d s).validator_rates = db.validator_rates := by
  unfold Db.upsertAsset
  split <;> exact ⟨rfl, rfl⟩

theorem upsertAssets_fields :
    ∀ (l : List (Nat × String × Nat)) (db : Db),
      (upsertAssets db l).base_rates = db.base_rates
      ∧ (upsertAssets db l).validator_rates = db.validator_rates := by
  intro l
  induction l with
  | nil =>
    intro db
    exact ⟨rfl, rfl⟩
  | cons p rest ih =>
    intro db
    simp only [upsertAssets, List.foldl_cons]
    have hr := ih (db.upsertAsset p.1 p.2.1 p.2.2)
    have h0 := upsertAsset_fields db p.1 p.2.1 p.2.2
    simp only [upsertAssets] at hr
    exact ⟨hr.1.trans h0.1, hr.2.trans h0.2⟩

theorem updateValidatorPowers_fields (o : Option (List ValidatorStatus)) :
    ∀ (db : Db),
      (updateValidatorPowers db o).base_rates = db.base_rates
      ∧ (updateValidatorPowers db o).validator_rates = db.validator_rates := by
  cases o with
  | none =>
    intro db
    exact ⟨rfl, rfl⟩
  | some statuses =>
    induction statuses with
    | nil =>
      intro db
      exact ⟨rfl, rfl⟩
    | cons s rest ih =>
      intro db
      simp only [updateValidatorPowers, List.foldl_cons]
      have hr := ih (db.updateValidatorPower s.identity_key s.voting_power)
      simp only [updateValidatorPowers] at hr
      exact hr

theorem insertValidatorRates_ok :
    ∀ (rates : List RateData) (db db' : Db),
      insertValidatorRates db rates = .ok db' →
      db'.validator_rates = db.validator_rates ++ rates.map (fun rd =>
        (⟨rd.identity_key, rd.epoch_index, rd.validator_reward_rate,
          rd.validator_exchange_rate⟩ : ValidatorRateRow))
      ∧ db'.base_rates = db.base_rates := by
  intro rates
  induction rates with
  | nil =>
    intro db db' h
    cases h
    simp
  | cons rd rest ih =>
    intro db db' h
    simp only [insertValidatorRates, TxOut.bind_eq_ok] at h
    obtain ⟨db1, h1, h2⟩ := h
    have e1 := insertValidatorRate_ok h1
    subst e1
    have hr := ih _ _ h2
    refine ⟨?_, hr.2⟩
    rw [hr.1]
    simp

theorem insertRates_ok_some {db db' : Db} {br : BaseRateData}
    {rates : List RateData}
    (h : insertRates db (some br) (some rates) = .ok db') :
    db'.base_rates = db.base_rates
        ++ [⟨br.epoch_index, br.base_reward_rate, br.base_exchange_rate⟩]
    ∧ db'.validator_rates = db.validator_rates ++ rates.map (fun rd =>
        (⟨rd.identity_key, rd.epoch_index, rd.validator_reward_rate,
          rd.validator_exchange_rate⟩ : ValidatorRateRow)) := by
  simp only [insertRates, TxOut.bind_eq_ok] at h
  obtain ⟨db1, h1, h2⟩ := h
  have e1 := insertBaseRate_ok h1
  subst e1
  have hr := insertValidatorRates_ok rates _ _ h2
  exact ⟨hr.2, hr.1⟩

theorem insertRates_none {db : Db} {nbr : Option BaseRateData}
    {nrs : Option (List RateData)} (h : nbr = none ∨ nrs = none) :
    insertRates db nbr nrs = .ok db := by
  cases nbr with
  | none => cases nrs <;> rfl
  | some br =>
    cases nrs with
    | none => rfl
    | some rates =>
      rcases h with h | h <;> cases h

/-- Inversion of a successful `commitBlockTx`: the block's height and
epoch were set, every fallible step succeeded in order, and the returned
app hash, anchors window, and next-rate-data are the computed ones. -/
theorem commitBlockTx_ok_inv {st : WriterState} {b : PendingBlock}
    {dbtx : Db} {height app : Nat} {anchors : List Nat}
    {nrd : Option (List (Nat × RateData))}
    (h : commitBlockTx st b = .ok (dbtx, height, app, anchors, nrd)) :
    b.height = some height
    ∧ app = blockAppHash st b height
    ∧ anchors = newAnchors st b
    ∧ nrd = nextRateDataOf b
    ∧ ∃ (db1 db2 db3 db4 : Db) (epoch : Epoch),
        b.epoch = some epoch
        ∧ (preBlockDb st b height).insertBlock height
            (root2 b.note_commitment_tree) (blockAppHash st b height)
            = .ok db1
        ∧ insertNotes height db1 b.notes = .ok db2
        ∧ insertNullifiers height db2 b.spent_nullifiers = .ok db3
        ∧ insertRates (upsertAssets (insertDelegationChanges epoch.index db3
            b.delegation_changes) b.supply_updates) b.next_base_rate
            b.next_rates = .ok db4
        ∧ dbtx = updateValidatorPowers db4 b.next_validator_statuses := by
  cases hh : b.height with
  | none =>
    simp only [commitBlockTx, hh] at h
    cases h
  | some height' =>
    simp only [commitBlockTx, hh, TxOut.bind_eq_ok] at h
    obtain ⟨db1, h1, db2, h2, db3, h3, h⟩ := h
    cases he : b.epoch with
    | none =>
      rw [he] at h
      cases h
    | some epoch =>
      rw [he] at h
      simp only [TxOut.bind_eq_ok] at h
      obtain ⟨db4, h4, h5⟩ := h
      cases h5
      exact ⟨rfl, rfl, rfl, rfl, db1, db2, db3, db4, epoch, rfl, h1, h2, h3,
        h4, rfl⟩

/-- Inversion of a `commit_block` call that returned `Outcome.ok`: the
transactional body succeeded and the post-state commits the transaction's
database and publishes height, anchors, and (when present) next rate
data. -/
theorem commit_block_ok_inv {st : WriterState} {b : PendingBlock} {r : Nat}
    {st' : WriterState} {tr : List Event}
    (h : commit_block st b = (Outcome.ok r, st', tr)) :
    ∃ dbtx height anchors nrd,
      commitBlockTx st b = .ok (dbtx, height, r, anchors, nrd)
      ∧ st' = ⟨dbtx, { st.channels with height := height, valid_anchors := anchors, next_rate_data := nrd.getD st.channels.next_rate_data }⟩ := by
  cases hc : commitBlockTx st b with
  | err => simp [commit_block, hc] at h
  | panic m => simp [commit_block, hc] at h
  | ok res =>
    obtain ⟨dbtx, height, app, anchors, nrd⟩ := res
    simp only [commit_block, hc] at h
    cases h
    exact ⟨dbtx, height, anchors, nrd, rfl, rfl⟩

/-- A fallible insert never panics: it either succeeds or surfaces a
database error. -/
theorem insertBlock_cases (db : Db) (h a p : Nat) :
    (∃ db', Db.insertBlock db h a p = .ok db')
    ∨ Db.insertBlock db h a p = .err := by
  unfold Db.insertBlock
  split
  · exact Or.inr rfl
  · exact Or.inl ⟨_, rfl⟩

theorem insertNoteRow_cases (db : Db) (r : NoteRow) :
    (∃ db', Db.insertNoteRow db r = .ok db')
    ∨ Db.insertNoteRow db r = .err := by
  unfold Db.insertNoteRow
  split
  · exact Or.inr rfl
  · exact Or.inl ⟨_, rfl⟩

theorem insertNullifier_cases (db : Db) (n h : Nat) :
    (∃ db', Db.insertNullifier db n h = .ok db')
    ∨ Db.insertNullifier db n h = .err := by
  unfold Db.insertNullifier
  split
  · exact Or.inr rfl
  · exact Or.inl ⟨_, rfl⟩

theorem insertNotes_cases (height : Nat) :
    ∀ (l : List (Nat × PositionedNoteData)) (db : Db),
      (∃ db', insertNotes height db l = .ok db')
      ∨ insertNotes height db l = .err := by
  intro l
  induction l with
  | nil =>
    intro db
    exact Or.inl ⟨db, rfl⟩
  | cons p rest ih =>
    intro db
    obtain ⟨c, pn⟩ := p
    simp only [insertNotes]
    rcases insertNoteRow_cases db ⟨c, pn.data.ephemeral_key,
      pn.data.encrypted_note, pn.data.transaction_id, pn.position, height⟩
      with ⟨db1, h1⟩ | h1
    · rw [h1]
      exact ih db1
    · rw [h1]
      exact Or.inr rfl

theorem insertNullifiers_cases (height : Nat) :
    ∀ (l : List Nat) (db : Db),
      (∃ db', insertNullifiers height db l = .ok db')
      ∨ insertNullifiers height db l = .err := by
  intro l
  induction l with
  | nil =>
    intro db
    exact Or.inl ⟨db, rfl⟩
  | cons n rest ih =>
    intro db
    simp only [insertNullifiers]
    rcases insertNullifier_cases db n height with ⟨db1, h1⟩ | h1
    · rw [h1]
      exact ih db1
    · rw [h1]
      exact Or.inr rfl

/-! ## Claim theorems for the state writer -/

/-- C1: if any database operation inside `commit_block` fails, the whole
block is aborted atomically — the writer state (database and every
snapshot channel) is unchanged and no channel publication happens; and on
every path, a channel publication occurs only strictly after the
transaction commit event. -/
theorem commit_block_atomicity (st : WriterState) (b : PendingBlock) :
    ((commit_block st b).1 = Outcome.err →
      (commit_block st b).2.1 = st ∧ (commit_block st b).2.2 = [])
    ∧ ((commit_block st b).2.2 = []
       ∨ ((commit_block st b).2.2.head? = some Event.dbCommit
          ∧ ∀ ev ∈ (commit_block st b).2.2.tail, ev.isPublish = true)) := by
  cases hc : commitBlockTx st b with
  | err => simp [commit_block, hc]
  | panic m => simp [commit_block, hc]
  | ok res =>
    obtain ⟨dbtx, height, app, anchors, nrd⟩ := res
    refine ⟨?_, ?_⟩
    · intro h
      simp [commit_block, hc] at h
    · right
      cases nrd with
      | none => simp [commit_block, hc, Event.isPublish]
      | some m => simp [commit_block, hc, Event.isPublish]

/-- Witness state for C1: nullifier 7 was spent at height 1; the block
re-submits it, so the nullifier insert violates uniqueness. -/
def dbA : Db := ⟨[], [], [], [(7, 1)], [], [], [], [], [], [], []⟩

def stA : WriterState := ⟨dbA, ⟨0, 1, [], [5]⟩⟩

def blkA : PendingBlock :=
  ⟨6, some 2, some ⟨0⟩, [], [7], [], [], none, none, none⟩

theorem commit_block_atomicity_witness :
    (commit_block stA blkA).1 = Outcome.err
    ∧ (commit_block stA blkA).2.1 = stA
    ∧ (commit_block stA blkA).2.2 = [] :=
  ⟨rfl, ((commit_block_atomicity stA blkA).1 rfl).1,
   ((commit_block_atomicity stA blkA).1 rfl).2⟩

theorem commit_block_ok_anchors {st : WriterState} {b : PendingBlock}
    {r : Nat} {st' : WriterState} {tr : List Event}
    (h : commit_block st b = (Outcome.ok r, st', tr)) :
    st'.channels.valid_anchors = newAnchors st b := by
  obtain ⟨dbtx, height, anchors, nrd, hc, hst⟩ := commit_block_ok_inv h
  have hi := commitBlockTx_ok_inv hc
  subst hst
  exact hi.2.2.1

theorem newAnchors_length (st : WriterState) (b : PendingBlock)
    (hlen : st.channels.valid_anchors.length ≤ NUM_RECENT_ANCHORS) :
    (newAnchors st b).length ≤ NUM_RECENT_ANCHORS := by
  have hN : 0 < NUM_RECENT_ANCHORS := by decide
  unfold newAnchors
  split
  · rename_i hge
    simp only [List.length_cons, List.length_dropLast]
    omega
  · rename_i hlt
    simp only [List.length_cons]
    omega

/-- C4: along any sequence of successful block commits the anchors window
never exceeds `NUM_RECENT_ANCHORS` entries; after each successful commit
its front entry is the committed block's nct root; and when the window was
full, the oldest (tail) entry is the one evicted. -/
theorem commit_block_anchors_window :
    (∀ (st : WriterState) (bs : List PendingBlock) (st' : WriterState),
      st.channels.valid_anchors.length ≤ NUM_RECENT_ANCHORS →
      commitBlocks st bs = some st' →
      st'.channels.valid_anchors.length ≤ NUM_RECENT_ANCHORS)
    ∧ (∀ (st : WriterState) (b : PendingBlock) (r : Nat)
        (st' : WriterState) (tr : List Event),
        commit_block st b = (Outcome.ok r, st', tr) →
        st'.channels.valid_anchors.head?
            = some (root2 b.note_commitment_tree)
        ∧ (st.channels.valid_anchors.length = NUM_RECENT_ANCHORS →
            st'.channels.valid_anchors
              = root2 b.note_commitment_tree
                  :: st.channels.valid_anchors.dropLast)) := by
  constructor
  · intro st bs
    induction bs generalizing st with
    | nil =>
      intro st' hlen h
      cases h
      exact hlen
    | cons b rest ih =>
      intro st' hlen h
      simp only [commitBlocks] at h
      split at h
      · rename_i r st1 tr heq
        have hanch := commit_block_ok_anchors heq
        have hlen1 : st1.channels.valid_anchors.length
            ≤ NUM_RECENT_ANCHORS := by
          rw [hanch]
          exact newAnchors_length st b hlen
        exact ih st1 st' hlen1 h
      · cases h
  · intro st b r st' tr h
    have hanch := commit_block_ok_anchors h
    constructor
    · rw [hanch]
      rfl
    · intro hfull
      rw [hanch]
      unfold newAnchors
      rw [if_pos (le_of_eq hfull.symm)]

/-- Witness states for C4: an empty window and a full (64-entry) window. -/
def dbB : Db := ⟨[], [], [], [], [], [], [], [], [], [], []⟩

def stB : WriterState := ⟨dbB, ⟨0, 0, [], []⟩⟩

def blkB : PendingBlock :=
  ⟨5, some 1, some ⟨0⟩, [], [3], [], [], none, none, none⟩

def stB1 : WriterState := (commit_block stB blkB).2.1

def trB : List Event := (commit_block stB blkB).2.2

def appB : Nat := blockAppHash stB blkB 1

def stF : WriterState := ⟨dbB, ⟨0, 0, [], List.replicate 64 9⟩⟩

def stF1 : WriterState := (commit_block stF blkB).2.1

def trF : List Event := (commit_block stF blkB).2.2

def appF : Nat := blockAppHash stF blkB 1

theorem commit_block_anchors_window_witness :
    stB1.channels.valid_anchors.length ≤ NUM_RECENT_ANCHORS
    ∧ stB1.channels.valid_anchors.head?
        = some (root2 blkB.note_commitment_tree)
    ∧ stF1.channels.valid_anchors
        = root2 blkB.note_commitment_tree
            :: stF.channels.valid_anchors.dropLast :=
  ⟨commit_block_anchors_window.1 stB [blkB] stB1 (by decide) rfl,
   (commit_block_anchors_window.2 stB blkB appB stB1 trB rfl).1,
   (commit_block_anchors_window.2 stF blkB appF stF1 trF rfl).2 (by decide)⟩

/-- C8: a successful `commit_block` of a block carrying both next-epoch
base rate data and next validator rates appends exactly the new base-rate
row and the per-validator rate rows for the new epoch index; a successful
commit of a block not carrying both leaves `base_rates` and
`validator_rates` unchanged. -/
theorem commit_block_next_rates (st : WriterState) (b : PendingBlock)
    (r : Nat) (st' : WriterState) (tr : List Event)
    (h : commit_block st b = (Outcome.ok r, st', tr)) :
    (∀ (br : BaseRateData) (rates : List RateData),
      b.next_base_rate = some br → b.next_rates = some rates →
      st'.db.base_rates = st.db.base_rates
          ++ [⟨br.epoch_index, br.base_reward_rate, br.base_exchange_rate⟩]
      ∧ st'.db.validator_rates = st.db.validator_rates
          ++ rates.map (fun rd =>
            (⟨rd.identity_key, rd.epoch_index, rd.validator_reward_rate,
              rd.validator_exchange_rate⟩ : ValidatorRateRow)))
    ∧ ((b.next_base_rate = none ∨ b.next_rates = none) →
      st'.db.base_rates = st.db.base_rates
      ∧ st'.db.validator_rates = st.db.validator_rates) := by
  obtain ⟨dbtx, height, anchors, nrd, hc, hst⟩ := commit_block_ok_inv h
  obtain ⟨hh, happ, hanch, hnrd, db1, db2, db3, db4, epoch, hep, h1, h2, h3,
    h4, hdb⟩ := commitBlockTx_ok_inv hc
  subst hdb
  subst hst
  have e0 := preBlockDb_fields st b height
  have e2 := insertNotes_ok_fields height b.notes _ _ h2
  have e3 := insertNullifiers_ok_fields height b.spent_nullifiers _ _ h3
  have e4a := insertDelegationChanges_fields epoch.index
    b.delegation_changes db3
  have e4b := upsertAssets_fields b.supply_updates
    (insertDelegationChanges epoch.index db3 b.delegation_changes)
  have e5 := updateValidatorPowers_fields b.next_validator_statuses db4
  have hb1 : db1.base_rates = st.db.base_rates := by
    rw [insertBlock_ok h1]
    exact e0.1
  have hv1 : db1.validator_rates = st.db.validator_rates := by
    rw [insertBlock_ok h1]
    exact e0.2
  have hb3 : db3.base_rates = st.db.base_rates := by
    rw [e3.1, e2.1, hb1]
  have hv3 : db3.validator_rates = st.db.validator_rates := by
    rw [e3.2.1, e2.2.1, hv1]
  have hbpre : (upsertAssets (insertDelegationChanges epoch.index db3
      b.delegation_changes) b.supply_updates).base_rates
      = st.db.base_rates := by
    rw [e4b.1, e4a.1, hb3]
  have hvpre : (upsertAssets (insertDelegationChanges epoch.index db3
      b.delegation_changes) b.supply_updates).validator_rates
      = st.db.validator_rates := by
    rw [e4b.2, e4a.2, hv3]
  constructor
  · intro br rates hbr hrs
    rw [hbr, hrs] at h4
    have hr := insertRates_ok_some h4
    constructor
    · rw [e5.1, hr.1, hbpre]
    · rw [e5.2, hr.2, hvpre]
  · intro hnone
    rw [insertRates_none hnone] at h4
    cases h4
    constructor
    · rw [e5.1, hbpre]
    · rw [e5.2, hvpre]

/-- Witness block for C8 carrying next-epoch rates. -/
def blkR : PendingBlock :=
  ⟨5, some 1, some ⟨0⟩, [], [], [], [], some ⟨1, 0, 100000000⟩,
   some [⟨9, 1, 0, 100000000⟩], none⟩

def stR1 : WriterState := (commit_block stB blkR).2.1

def trR : List Event := (commit_block stB blkR).2.2

def appR : Nat := blockAppHash stB blkR 1

theorem commit_block_next_rates_witness :
    (stR1.db.base_rates = stB.db.base_rates
        ++ [⟨1, 0, 100000000⟩]
     ∧ stR1.db.validator_rates = stB.db.validator_rates
        ++ [⟨9, 1, 0, 100000000⟩])
    ∧ (stB1.db.base_rates = stB.db.base_rates
       ∧ stB1.db.validator_rates = stB.db.validator_rates) :=
  ⟨(commit_block_next_rates stB blkR appR stR1 trR rfl).1
      ⟨1, 0, 100000000⟩ [⟨9, 1, 0, 100000000⟩] rfl rfl,
   (commit_block_next_rates stB blkB appB stB1 trB rfl).2 (Or.inl rfl)⟩

/-- C10 counterexample: a block whose epoch is unset but whose spent
nullifier 7 is already recorded at an earlier height.  `commit_block`
surfaces the database error from the nullifier insert (which runs before
the epoch `unwrap` is reached) instead of panicking. -/
def dbC : Db := ⟨[], [], [], [(7, 1)], [], [], [], [], [], [], []⟩

def stC : WriterState := ⟨dbC, ⟨0, 1, [], []⟩⟩

def blkCE : PendingBlock :=
  ⟨6, some 2, none, [], [7], [], [], none, none, none⟩

def blkCH : PendingBlock :=
  ⟨6, none, some ⟨0⟩, [], [], [], [], none, none, none⟩

/-- C10, counterexample: a `PendingBlock` with unset epoch on which
`commit_block` returns the error outcome, not a panic. -/
theorem commit_block_epoch_unset_counterexample :
    blkCE.epoch = none ∧ (commit_block stC blkCE).1 = Outcome.err :=
  ⟨rfl, rfl⟩

/-- C10 (amended): a block with unset height always panics via the height
`expect`; a block with unset (but reachable) epoch either panics via the
epoch `unwrap` — when every earlier insert succeeds — or surfaces the
database error of an earlier failed insert; it never commits
successfully. -/
theorem commit_block_unset_height_epoch (st : WriterState)
    (b : PendingBlock) :
    (b.height = none →
      (commit_block st b).1 = Outcome.panic "height must be set")
    ∧ (b.epoch = none → b.height ≠ none →
        (commit_block st b).1
            = Outcome.panic "called Option::unwrap() on a None value"
        ∨ (commit_block st b).1 = Outcome.err) := by
  constructor
  · intro hh
    simp [commit_block, commitBlockTx, hh]
  · intro he hh
    cases hhh : b.height with
    | none => exact absurd hhh hh
    | some height =>
      have key : commitBlockTx st b
            = .panic "called Option::unwrap() on a None value"
          ∨ commitBlockTx st b = .err := by
        simp only [commitBlockTx, hhh]
        rcases insertBlock_cases (preBlockDb st b height) height
            (root2 b.note_commitment_tree) (blockAppHash st b height)
          with ⟨db1, h1⟩ | h1
        · rw [h1]
          simp only [TxOut.bind]
          rcases insertNotes_cases height b.notes db1 with ⟨db2, h2⟩ | h2
          · rw [h2]
            simp only [TxOut.bind]
            rcases insertNullifiers_cases height b.spent_nullifiers db2
              with ⟨db3, h3⟩ | h3
            · rw [h3]
              simp only [TxOut.bind]
              rw [he]
              exact Or.inl rfl
            · rw [h3]
              exact Or.inr rfl
          · rw [h2]
            exact Or.inr rfl
        · rw [h1]
          exact Or.inr rfl
      rcases key with k | k
      · exact Or.inl (by simp [commit_block, k])
      · exact Or.inr (by simp [commit_block, k])

theorem commit_block_unset_height_epoch_witness :
    (commit_block stC blkCH).1 = Outcome.panic "height must be set"
    ∧ ((commit_block stC blkCE).1
          = Outcome.panic "called Option::unwrap() on a None value"
       ∨ (commit_block stC blkCE).1 = Outcome.err) :=
  ⟨(commit_block_unset_height_epoch stC blkCH).1 rfl,
   (commit_block_unset_height_epoch stC blkCE).2 rfl (by decide)⟩

/-! ## Lemmas about commit_genesis -/

theorem insertBlob_ok {db db' : Db} {id : String} {d : BlobData}
    (hok : Db.insertBlob db id d = .ok db') :
    db' = { db with blobs := db.blobs ++ [(id, d)] } := by
  unfold Db.insertBlob at hok
  split at hok
  · cases hok
  · cases hok
    rfl

theorem fundingStreams_fields (ik : Nat) :
    ∀ (fss : List FundingStream) (db : Db),
      ((fss.foldl (fun d fs => d.insertFundingStream
          ⟨ik, fs.address, fs.rate_bps⟩) db).blobs = db.blobs)
      ∧ ((fss.foldl (fun d fs => d.insertFundingStream
          ⟨ik, fs.address, fs.rate_bps⟩) db).base_rates = db.base_rates)
      ∧ ((fss.foldl (fun d fs => d.insertFundingStream
          ⟨ik, fs.address, fs.rate_bps⟩) db).validator_rates
            = db.validator_rates) := by
  intro fss
  induction fss with
  | nil =>
    intro db
    exact ⟨rfl, rfl, rfl⟩
  | cons fs rest ih =>
    intro db
    simp only [List.foldl_cons]
    exact ih _

theorem rdInsert_mem_self (m : List (Nat × RateData)) (k : Nat)
    (v : RateData) : (k, v) ∈ rdInsert m k v := by
  unfold rdInsert
  by_cases h : m.any (fun p => p.1 == k) = true
  · rw [if_pos h]
    obtain ⟨p0, hp0, hk0⟩ := List.any_eq_true.mp h
    simp only [beq_iff_eq] at hk0
    rw [List.mem_map]
    exact ⟨p0, hp0, by simp [hk0]⟩
  · rw [if_neg h]
    simp

theorem rdInsert_mem_preserve (m : List (Nat × RateData)) (k : Nat)
    (v : RateData) (a : Nat) (w : RateData) (hmem : (a, w) ∈ m)
    (hne : a ≠ k) : (a, w) ∈ rdInsert m k v := by
  unfold rdInsert
  by_cases h : m.any (fun p => p.1 == k) = true
  · rw [if_pos h]
    rw [List.mem_map]
    refine ⟨(a, w), hmem, ?_⟩
    simp [hne]
  · rw [if_neg h]
    simp [hmem]

theorem genesisValidatorLoop_spec :
    ∀ (vps : List ValidatorPower) (db : Db) (nrd : List (Nat × RateData))
      (db' : Db) (nrd' : List (Nat × RateData)),
      genesisValidatorLoop db nrd vps = .ok (db', nrd') →
      db'.blobs = db.blobs
      ∧ db'.base_rates = db.base_rates
      ∧ (∀ row ∈ db.validator_rates, row ∈ db'.validator_rates)
      ∧ (∀ vp ∈ vps,
          (⟨vp.validator.identity_key, 0, 0, 100000000⟩ : ValidatorRateRow)
              ∈ db'.validator_rates
          ∧ (⟨vp.validator.identity_key, 1, 0, 100000000⟩ : ValidatorRateRow)
              ∈ db'.validator_rates)
      ∧ (∀ a : Nat, (a, (⟨a, 1, 0, 100000000⟩ : RateData)) ∈ nrd →
          (a, (⟨a, 1, 0, 100000000⟩ : RateData)) ∈ nrd')
      ∧ (∀ vp ∈ vps,
          (vp.validator.identity_key,
            (⟨vp.validator.identity_key, 1, 0, 100000000⟩ : RateData))
              ∈ nrd') := by
  intro vps
  induction vps with
  | nil =>
    intro db nrd db' nrd' h
    cases h
    exact ⟨rfl, rfl, fun r hr => hr, by simp, fun a ha => ha, by simp⟩
  | cons vp rest ih =>
    intro db nrd db' nrd' h
    simp only [genesisValidatorLoop, TxOut.bind_eq_ok] at h
    obtain ⟨dbv, hv, dbr0, h0, dbr1, h1, hrec⟩ := h
    have hvi := insertValidator_ok hv
    have hf := fundingStreams_fields vp.validator.identity_key
      vp.validator.funding_streams dbv
    have hr0 := insertValidatorRate_ok h0
    have hr1 := insertValidatorRate_ok h1
    have ihrec := ih dbr1 _ db' nrd' hrec
    have hblobs : dbr1.blobs = db.blobs := by
      rw [hr1, hr0]
      show (vp.validator.funding_streams.foldl _ dbv).blobs = db.blobs
      rw [hf.1, hvi]
    have hbase : dbr1.base_rates = db.base_rates := by
      rw [hr1, hr0]
      show (vp.validator.funding_streams.foldl _ dbv).base_rates
        = db.base_rates
      rw [hf.2.1, hvi]
    have hvrates : dbr1.validator_rates
        = db.validator_rates
          ++ [⟨vp.validator.identity_key, 0, 0, 100000000⟩]
          ++ [⟨vp.validator.identity_key, 1, 0, 100000000⟩] := by
      rw [hr1, hr0]
      show ((vp.validator.funding_streams.foldl _ dbv).validator_rates
          ++ _) ++ _ = _
      rw [hf.2.2, hvi]
    refine ⟨ihrec.1.trans hblobs, ihrec.2.1.trans hbase, ?_, ?_, ?_, ?_⟩
    · intro row hrow
      apply ihrec.2.2.1
      rw [hvrates]
      simp [hrow]
    · intro vq hq
      rw [List.mem_cons] at hq
      rcases hq with rfl | hq
      · constructor
        · apply ihrec.2.2.1
          rw [hvrates]
          simp
        · apply ihrec.2.2.1
          rw [hvrates]
          simp
      · exact ihrec.2.2.2.1 vq hq
    · intro a ha
      apply ihrec.2.2.2.2.1
      by_cases hak : a = vp.validator.identity_key
      · rw [hak]
        exact rdInsert_mem_self nrd vp.validator.identity_key _
      · exact rdInsert_mem_preserve nrd vp.validator.identity_key _ a _ ha hak
    · intro vq hq
      rw [List.mem_cons] at hq
      rcases hq with rfl | hq
      · exact ihrec.2.2.2.2.1 vq.validator.identity_key
          (rdInsert_mem_self nrd vq.validator.identity_key _)
      · exact ihrec.2.2.2.2.2 vq hq

/-- Inversion of a successful `commitGenesisTx`. -/
theorem commitGenesisTx_ok_inv {st : WriterState} {g : AppState} {dbtx : Db}
    {nrd : List (Nat × RateData)}
    (h : commitGenesisTx st g = .ok (dbtx, nrd)) :
    ∃ dbg dbb0 dbb1 : Db,
      st.db.insertBlob "gc" (.gc g) = .ok dbg
      ∧ dbg.insertBaseRate 0 0 100000000 = .ok dbb0
      ∧ dbb0.insertBaseRate 1 0 100000000 = .ok dbb1
      ∧ genesisValidatorLoop dbb1 [] g.validators = .ok (dbtx, nrd) := by
  simp only [commitGenesisTx, TxOut.bind_eq_ok] at h
  obtain ⟨dbg, hg, dbb0, hb0, dbb1, hb1, hloop⟩ := h
  exact ⟨dbg, dbb0, dbb1, hg, hb0, hb1, hloop⟩

/-- C5: after a successful `commit_genesis`, a second call fails (the
uniqueness constraint on the "gc" blob, inserted with no conflict
resolution) and leaves all state written by the first call unchanged, with
nothing published. -/
theorem commit_genesis_second_call_fails (st st1 : WriterState)
    (g g2 : AppState) (tr : List Event)
    (h : commit_genesis st g = (GenesisOutcome.ok, st1, tr)) :
    commit_genesis st1 g2 = (GenesisOutcome.err, st1, []) := by
  have hblobs : st1.db.blobs = st.db.blobs ++ [("gc", BlobData.gc g)] := by
    cases hc : commitGenesisTx st g with
    | err => simp [commit_genesis, hc] at h
    | panic m => simp [commit_genesis, hc] at h
    | ok res =>
      obtain ⟨dbtx, nrd⟩ := res
      simp only [commit_genesis, hc] at h
      cases h
      obtain ⟨dbg, dbb0, dbb1, hg, hb0, hb1, hloop⟩ :=
        commitGenesisTx_ok_inv hc
      have hl := (genesisValidatorLoop_spec g.validators dbb1 [] dbtx nrd
        hloop).1
      show dbtx.blobs = _
      rw [hl, insertBaseRate_ok hb1, insertBaseRate_ok hb0,
        insertBlob_ok hg]
  have hany : st1.db.blobs.any (fun p => p.1 == "gc") = true := by
    rw [hblobs]
    simp
  have hfail : st1.db.insertBlob "gc" (.gc g2) = .err := by
    unfold Db.insertBlob
    rw [if_pos hany]
  have htx : commitGenesisTx st1 g2 = .err := by
    simp only [commitGenesisTx, hfail]
    rfl
  simp [commit_genesis, htx]

/-- Witness genesis config for C5 (no validators). -/
def gG : AppState := ⟨42, []⟩

def stG1 : WriterState := (commit_genesis stB gG).2.1

def trG : List Event := (commit_genesis stB gG).2.2

theorem commit_genesis_second_call_fails_witness :
    commit_genesis stG1 gG = (GenesisOutcome.err, stG1, []) :=
  commit_genesis_second_call_fails stB stG1 gG gG trG rfl

/-- C6: a successful `commit_genesis` inserts base-rate rows for epochs 0
and 1 with reward rate 0 and exchange rate 100000000 (fixed-point 1.0 at
scale 1e8), inserts identical validator-rate rows for epochs 0 and 1 for
each genesis validator, and publishes a next-rate-data map containing, for
each genesis validator identity, a `RateData` with epoch index 1, reward
rate 0 and exchange rate 100000000. -/
theorem commit_genesis_rates (st : WriterState) (g : AppState)
    (st1 : WriterState) (tr : List Event)
    (h : commit_genesis st g = (GenesisOutcome.ok, st1, tr)) :
    ((⟨0, 0, 100000000⟩ : BaseRateRow) ∈ st1.db.base_rates
     ∧ (⟨1, 0, 100000000⟩ : BaseRateRow) ∈ st1.db.base_rates)
    ∧ (∀ vp ∈ g.validators,
        (⟨vp.validator.identity_key, 0, 0, 100000000⟩ : ValidatorRateRow)
            ∈ st1.db.validator_rates
        ∧ (⟨vp.validator.identity_key, 1, 0, 100000000⟩ : ValidatorRateRow)
            ∈ st1.db.validator_rates)
    ∧ (∀ vp ∈ g.validators,
        (vp.validator.identity_key,
          (⟨vp.validator.identity_key, 1, 0, 100000000⟩ : RateData))
            ∈ st1.channels.next_rate_data) := by
  cases hc : commitGenesisTx st g with
  | err => simp [commit_genesis, hc] at h
  | panic m => simp [commit_genesis, hc] at h
  | ok res =>
    obtain ⟨dbtx, nrd⟩ := res
    simp only [commit_genesis, hc] at h
    cases h
    obtain ⟨dbg, dbb0, dbb1, hg, hb0, hb1, hloop⟩ :=
      commitGenesisTx_ok_inv hc
    have hl := genesisValidatorLoop_spec g.validators dbb1 [] dbtx nrd hloop
    refine ⟨?_, ?_, ?_⟩
    · show _ ∈ dbtx.base_rates ∧ _ ∈ dbtx.base_rates
      rw [hl.2.1, insertBaseRate_ok hb1, insertBaseRate_ok hb0]
      constructor
      · simp
      · simp
    · intro vp hvp
      exact hl.2.2.2.1 vp hvp
    · intro vp hvp
      exact hl.2.2.2.2.2 vp hvp

/-- Witness genesis config for C6, with one validator of identity key
100. -/
def gV : AppState :=
  ⟨42, [⟨⟨100, 101, 0, "v", "w", "d", [⟨200, 500⟩]⟩, 1000⟩]⟩

def stV1 : WriterState := (commit_genesis stB gV).2.1

def trV : List Event := (commit_genesis stB gV).2.2

theorem commit_genesis_rates_witness :
    ((⟨0, 0, 100000000⟩ : BaseRateRow) ∈ stV1.db.base_rates
     ∧ (⟨1, 0, 100000000⟩ : BaseRateRow) ∈ stV1.db.base_rates)
    ∧ ((⟨100, 0, 0, 100000000⟩ : ValidatorRateRow)
          ∈ stV1.db.validator_rates
       ∧ (⟨100, 1, 0, 100000000⟩ : ValidatorRateRow)
          ∈ stV1.db.validator_rates)
    ∧ (100, (⟨100, 1, 0, 100000000⟩ : RateData))
        ∈ stV1.channels.next_rate_data := by
  have h := commit_genesis_rates stB gV stV1 trV rfl
  refine ⟨h.1, ?_, ?_⟩
  · exact h.2.1 ⟨⟨100, 101, 0, "v", "w", "d", [⟨200, 500⟩]⟩, 1000⟩
      (List.mem_singleton.mpr rfl)
  · exact h.2.2 ⟨⟨100, 101, 0, "v", "w", "d", [⟨200, 500⟩]⟩, 1000⟩
      (List.mem_singleton.mpr rfl)

end Penumbra
